import Mathlib

/-!
# imapdb: a key-value store kept in an IMAP mailbox

Shallow embedding of `imapdb.go` (`dbImpl.Get`, `dbImpl.Set`, `dbImpl.Delete`).

The Go code talks to two things that are not part of the repository:

* an IMAP server, reached through `imapclient.Client`.  It is modelled by the
  record `Client`: the messages of the one mailbox the session works on, the
  next UID the server will hand out, and the list of commands issued so far.
  `SEARCH TEXT k` reports the messages in whose header or body text `k`
  occurs, letter case ignored; `FETCH` answers in mailbox order (ascending
  UID); `STORE` sets the `\Deleted` flag; `EXPUNGE` drops every flagged
  message; `APPEND` adds a message under the next UID.  Every command can be
  made to fail through a `Faults` record.
* the `go-message/mail` reader and writer.  A message is kept in parsed form
  (`Literal`): the header fields and part contents that `Set` fixes in the
  source, the sequence of results `NextPart` yields, and `wire`, the octets of
  the literal that the source does not determine (what the writer adds: MIME
  version, multipart content type with its random boundary, the rendered date,
  transfer-encoding fields, the transfer-encoded bodies).  `Set` takes these
  octets as an argument, so every statement about `Set` holds whatever the
  writer adds, and describes a run of the program when `wire` is what the
  writer added in that run.

A Go `string` and a Go `[]byte` are both sequences of bytes: `List Byte`.
A `[]byte` result that may be `nil` is an `Option (List Byte)`.
-/

namespace imapdb

/-- One octet. -/
abbrev Byte := Fin 256

/-- Go `error` values that `Get`, `Set` and `Delete` return: the package
variable `ErrNotFound`, or any other error, identified by its text. -/
inductive Err where
  | ErrNotFound
  | other (text : String)
  deriving DecidableEq, Repr

/-- Dynamic type of `p.Header` for a part delivered by `mail.Reader.NextPart`. -/
inductive PartHeader where
  | InlineHeader
  | AttachmentHeader
  deriving DecidableEq, Repr

/-- Header field, `name: value`. -/
structure Field where
  name : List Byte
  value : List Byte
  deriving DecidableEq, Repr

/-- Result of one `mr.NextPart()` call that is not `io.EOF`: the dynamic type
of the part header, the header fields of the part, and what
`io.ReadAll(p.Body)` gives for that part. -/
structure Part where
  Header : PartHeader
  fields : List Field
  Body : String ⊕ List Byte
  deriving DecidableEq, Repr

/-- Message literal as the mail library sees it.  `malformed` is a literal
`mail.CreateReader` rejects (the raw octets are kept for text search); `mail`
carries the date, the header fields of the message, in order the results of
successive `NextPart` calls (`Sum.inl e` is a non-EOF error), and `wire`, the
other octets of the literal as it is stored. -/
inductive Literal where
  | malformed (raw : List Byte) (err : String)
  | mail (date : Nat) (fields : List Field) (parts : List (String ⊕ Part))
      (wire : List Byte)
  deriving DecidableEq, Repr

/-- Message of the mailbox: UID, the `\Deleted` flag, and the literal. -/
structure Stored where
  uid : Nat
  deleted : Bool
  literal : Literal
  deriving DecidableEq, Repr

/-- IMAP commands the client sends. -/
inductive Cmd where
  | SELECT (mailbox : String)
  | UIDSEARCH (text : List Byte)
  | UIDSTORE (uids : List Nat)
  | EXPUNGE
  | UIDFETCH (uids : List Nat)
  | APPEND (mailbox : String) (literal : Literal)
  deriving DecidableEq, Repr

/-- The connection: server-side mailbox plus the commands issued on it. -/
structure Client where
  msgs : List Stored
  uidNext : Nat
  log : List Cmd
  deriving DecidableEq, Repr

/-- Receiver of the methods, `type dbImpl struct { client; dbName }`. -/
structure dbImpl where
  client : Client
  dbName : String
  deriving DecidableEq, Repr

/-- Which calls fail during one operation.  `none` / `false` is success; a
`some e` carries the text of the error the call returns. -/
structure Faults where
  Select : Option String
  UIDSearch : Option String
  Store : Bool
  Expunge : Bool
  FetchNone : Bool
  FetchNoBody : Bool
  FetchClose : Option String
  CreateWriter : Option String
  CreateSingleInline : Option String
  InlineWrite : Option String
  CreateAttachment : Option String
  AttachmentWrite : Option String
  AppendWrite : Option String
  AppendClose : Option String
  AppendWait : Option String
  deriving DecidableEq, Repr

/-- Every call succeeds. -/
def noFaults : Faults :=
  ⟨none, none, false, false, false, false, none, none, none, none, none, none, none, none, none⟩

/-! ## The IMAP server -/

/-- The octets of an ASCII text. -/
def ascii (s : String) : List Byte := s.toList.map (fun c => Fin.ofNat c.toNat)

/-- Lower-case form of a letter `A`..`Z`, any other octet unchanged. -/
def lower (b : Byte) : Byte := if 65 ≤ b.val ∧ b.val ≤ 90 then b + 32 else b

/-- Does `key` occur in `text`, letter case ignored. -/
def occursIn (key text : List Byte) : Bool :=
  decide (key.map lower <:+: text.map lower)

/-- The text of a header field as it is searched. -/
def Field.line (x : Field) : List Byte := x.name ++ [58, 32] ++ x.value

/-- Does `SEARCH TEXT key` match the literal: `key` occurs, letter case
ignored, in a header field of the message or of one of its parts, in the text
of an inline part, or in the other octets of the literal (in the raw octets
when the literal does not parse). -/
def Literal.textMatch (key : List Byte) : Literal → Bool
  | .malformed raw _ => occursIn key raw
  | .mail _ fields parts wire =>
    fields.any (fun x => occursIn key x.line) ||
      parts.any (fun p =>
        match p with
        | .inr q =>
          q.fields.any (fun x => occursIn key x.line) ||
            (match q.Header, q.Body with
              | .InlineHeader, .inr body => occursIn key body
              | _, _ => false)
        | .inl _ => false) ||
      occursIn key wire

/-- Items of one FETCH response. -/
inductive FetchItemData where
  | FetchItemDataUID (uid : Nat)
  | FetchItemDataBodySection (Literal : Literal)
  deriving DecidableEq, Repr

/-- `c.Select(name, nil).Wait()`: the session has a single mailbox, selecting
it changes no message. -/
def Client.Select (f : Faults) (name : String) (c : Client) : Client × Option String :=
  ({ c with log := c.log ++ [.SELECT name] }, f.Select)

/-- `c.UIDSearch(&imap.SearchCriteria{Text: []string{key}}, nil).Wait()`
followed by `AllUIDs()`: the UIDs of the matching messages, ascending. -/
def Client.UIDSearch (f : Faults) (key : List Byte) (c : Client) :
    Client × (String ⊕ List Nat) :=
  ({ c with log := c.log ++ [.UIDSEARCH key] },
    match f.UIDSearch with
    | some e => .inl e
    | none => .inr ((c.msgs.filter (fun m => m.literal.textMatch key)).map (fun m => m.uid)))

/-- `c.Store(imap.UIDSetNum(uids...), +FLAGS.SILENT (\Deleted), nil)`; the
command result is never read by the callers.  A failing STORE changes nothing. -/
def Client.Store (f : Faults) (uids : List Nat) (c : Client) : Client :=
  { c with
    msgs := if f.Store then c.msgs
            else c.msgs.map (fun m => if m.uid ∈ uids then { m with deleted := true } else m),
    log := c.log ++ [.UIDSTORE uids] }

/-- `c.Expunge().Close()`, result dropped: every message flagged `\Deleted`
leaves the mailbox.  A failing EXPUNGE changes nothing. -/
def Client.Expunge (f : Faults) (c : Client) : Client :=
  { c with
    msgs := if f.Expunge then c.msgs else c.msgs.filter (fun m => !m.deleted),
    log := c.log ++ [.EXPUNGE] }

/-- `c.Fetch(imap.UIDSetNum(uids...), BODY[])`: the stream of message data,
in mailbox order, each with its UID and its body section. -/
def Client.Fetch (f : Faults) (uids : List Nat) (c : Client) :
    Client × List (List FetchItemData) :=
  ({ c with log := c.log ++ [.UIDFETCH uids] },
    if f.FetchNone then []
    else (c.msgs.filter (fun m => decide (m.uid ∈ uids))).map (fun m =>
      if f.FetchNoBody then [.FetchItemDataUID m.uid]
      else [.FetchItemDataUID m.uid, .FetchItemDataBodySection m.literal]))

/-- `c.Append(name, size, nil)`, `Write`, `Close`, `Wait`: the first failing
step gives the error; when all succeed the message is stored under the next
UID, unflagged. -/
def Client.Append (f : Faults) (name : String) (lit : Literal) (c : Client) :
    Client × Option Err :=
  let c1 : Client := { c with log := c.log ++ [.APPEND name lit] }
  match f.AppendWrite with
  | some e => (c1, some (.other ("failed to write message: " ++ e)))
  | none =>
  match f.AppendClose with
  | some e => (c1, some (.other ("failed to close message: " ++ e)))
  | none =>
  match f.AppendWait with
  | some e => (c1, some (.other ("APPEND command failed: " ++ e)))
  | none =>
    ({ c1 with msgs := c1.msgs ++ [⟨c1.uidNext, false, lit⟩], uidNext := c1.uidNext + 1 }, none)

/-! ## dbImpl.Get -/

/-- The `for { item := msg.Next() ... }` loop of `Get`: the first item that is
a `FetchItemDataBodySection`. -/
def bodySection : List FetchItemData → Option Literal
  | [] => none
  | .FetchItemDataBodySection lit :: _ => some lit
  | .FetchItemDataUID _ :: rest => bodySection rest

/-- The `for { p, err := mr.NextPart() ... }` loop of `Get`; `data` is the
variable `data []byte`, `none` for `nil`.  Every attachment part assigns
`data`; `io.ReadAll` returns a non-nil slice, also for an empty body. -/
def readParts : List (String ⊕ Part) → Option (List Byte) → Err ⊕ Option (List Byte)
  | [], data => .inr data
  | .inl e :: _, _ => .inl (.other ("failed to read message part: " ++ e))
  | .inr p :: rest, data =>
    match p.Header with
    | .AttachmentHeader =>
      match p.Body with
      | .inl e => .inl (.other ("failed to read attachment body: " ++ e))
      | .inr b => readParts rest (some b)
    | .InlineHeader => readParts rest data

/-- `func (db *dbImpl) Get(key string) ([]byte, error)`. -/
def Get (f : Faults) (key : List Byte) (db : dbImpl) : dbImpl × (Err ⊕ List Byte) :=
  match db.client.Select f db.dbName with
  | (c, some e) => ({ db with client := c }, .inl (.other ("failed to select mailbox: " ++ e)))
  | (c, none) =>
  match c.UIDSearch f key with
  | (c, .inl e) =>
    ({ db with client := c },
      .inl (.other ("failed to search messages in " ++ db.dbName ++ ": " ++ e)))
  | (c, .inr uids) =>
  if uids.length = 0 then ({ db with client := c }, .inl .ErrNotFound)
  else
  match c.Fetch f uids with
  | (c, fetched) =>
  match fetched.head? with
  | none => ({ db with client := c }, .inl (.other "FETCH command did not return any message"))
  | some msg =>
  match bodySection msg with
  | none => ({ db with client := c }, .inl (.other "FETCH command did not return body section"))
  | some (.malformed _ e) =>
    ({ db with client := c }, .inl (.other ("failed to create mail reader: " ++ e)))
  | some (.mail _ _ parts _) =>
  match readParts parts none with
  | .inl e => ({ db with client := c }, .inl e)
  | .inr data =>
  match f.FetchClose with
  | some e => ({ db with client := c }, .inl (.other ("failed to close fetch command: " ++ e)))
  | none =>
  match data with
  | none => ({ db with client := c }, .inl .ErrNotFound)
  | some d => ({ db with client := c }, .inr d)

/-! ## dbImpl.Set -/

/-- What the text part reads back as: a line end written as LF or CR LF comes
back as CR LF. -/
def crlf : List Byte → List Byte
  | [] => []
  | 13 :: 10 :: rest => 13 :: 10 :: crlf rest
  | 10 :: rest => 13 :: 10 :: crlf rest
  | b :: rest => b :: crlf rest

/-- The two parts `Set` writes, as they read back: an inline part with
`Content-Type: text/plain; charset=utf-8` holding the key, and an attachment
part with `Content-Type: application/octet-stream` and the file name
`data.bin` holding the value. -/
def encodeParts (key value : List Byte) : List Part :=
  [⟨.InlineHeader, [⟨ascii "Content-Type", ascii "text/plain; charset=utf-8"⟩],
      .inr (crlf key)⟩,
    ⟨.AttachmentHeader,
      [⟨ascii "Content-Type", ascii "application/octet-stream"⟩,
        ⟨ascii "Content-Disposition", ascii "attachment; filename=data.bin"⟩],
      .inr value⟩]

/-- The message `Set` writes: `h.SetDate(now)`, `h.SetSubject(key)`, the two
parts, and `wire`, the octets the writer adds. -/
def encode (now : Nat) (wire : List Byte) (key value : List Byte) : Literal :=
  .mail now [⟨ascii "Subject", key⟩] ((encodeParts key value).map .inr) wire

/-- Lines 168-203 of `Set`: building the message in the buffer `b`. -/
def buildMessage (f : Faults) (now : Nat) (wire : List Byte) (key value : List Byte) :
    Err ⊕ Literal :=
  match f.CreateWriter with
  | some e => .inl (.other ("failed to create mail writer: " ++ e))
  | none =>
  match f.CreateSingleInline with
  | some e => .inl (.other ("failed to create inline part: " ++ e))
  | none =>
  match f.InlineWrite with
  | some e => .inl (.other ("failed to write inline part: " ++ e))
  | none =>
  match f.CreateAttachment with
  | some e => .inl (.other ("failed to create attachment: " ++ e))
  | none =>
  match f.AttachmentWrite with
  | some e => .inl (.other ("failed to write attachment: " ++ e))
  | none => .inr (encode now wire key value)

/-- `func (db *dbImpl) Set(key string, value []byte) error`; `now` is
`time.Now()`, `wire` the octets the mail writer adds to the buffer `b`. -/
def Set (f : Faults) (now : Nat) (wire : List Byte) (key value : List Byte) (db : dbImpl) :
    dbImpl × Option Err :=
  match db.client.Select f db.dbName with
  | (c, some e) => ({ db with client := c }, some (.other e))
  | (c, none) =>
  match c.UIDSearch f key with
  | (c, .inl e) =>
    ({ db with client := c },
      some (.other ("failed to search messages in " ++ db.dbName ++ ": " ++ e)))
  | (c, .inr uids) =>
  let c := if uids.length > 0 then (c.Store f uids).Expunge f else c
  match buildMessage f now wire key value with
  | .inl e => ({ db with client := c }, some e)
  | .inr b =>
  match c.Append f db.dbName b with
  | (c, r) => ({ db with client := c }, r)

/-! ## dbImpl.Delete -/

/-- `func (db *dbImpl) Delete(key string) error`. -/
def Delete (f : Faults) (key : List Byte) (db : dbImpl) : dbImpl × Option Err :=
  match db.client.Select f db.dbName with
  | (c, some e) => ({ db with client := c }, some (.other e))
  | (c, none) =>
  match c.UIDSearch f key with
  | (c, .inl e) =>
    ({ db with client := c },
      some (.other ("failed to search messages in " ++ db.dbName ++ ": " ++ e)))
  | (c, .inr uids) =>
  let c := if uids.length > 0 then (c.Store f uids).Expunge f else c
  ({ db with client := c }, none)

/-! ## Mailbox invariant and test data -/

/-- What RFC 3501 promises of a mailbox: UIDs strictly ascending in mailbox
order, and all below the next UID. -/
def Client.WF (c : Client) : Prop :=
  c.msgs.Pairwise (fun a b => a.uid < b.uid) ∧ ∀ m ∈ c.msgs, m.uid < c.uidNext

instance (c : Client) : Decidable c.WF := by
  unfold Client.WF; infer_instance

/-- A session on an empty mailbox named `imapdb`. -/
def emptyDB : dbImpl := ⟨⟨[], 1, []⟩, "imapdb"⟩

/-- The key `foo`. -/
def foo : List Byte := [102, 111, 111]

/-- The key `foobar`. -/
def foobar : List Byte := [102, 111, 111, 98, 97, 114]

/-- The key `a`. -/
def keyA : List Byte := [97]

/-- The key `ta`. -/
def keyTA : List Byte := [116, 97]

/-- The key `zz`, which occurs in no message of the examples. -/
def keyZZ : List Byte := [122, 122]

/-- Octets a writer may add to a message: further header fields and a
boundary line. -/
def sampleWire : List Byte :=
  ascii "Mime-Version: 1.0 Content-Transfer-Encoding: base64 --5e1c9d"

/-- A mailbox holding an entry for `foo` that is flagged `\Deleted` and an
entry for `foobar`. -/
def sampleDB : dbImpl :=
  ⟨⟨[⟨2, true, encode 10 sampleWire foo [9]⟩, ⟨5, false, encode 11 sampleWire foobar [8]⟩],
      7, []⟩, "imapdb"⟩

/-- Select, search, the construction of the message and the append succeed;
STORE and EXPUNGE may fail or not. -/
def Faults.onlyDeleteMayFail (f : Faults) : Prop :=
  f.Select = none ∧ f.UIDSearch = none ∧ f.CreateWriter = none ∧
    f.CreateSingleInline = none ∧ f.InlineWrite = none ∧ f.CreateAttachment = none ∧
    f.AttachmentWrite = none ∧ f.AppendWrite = none ∧ f.AppendClose = none ∧
    f.AppendWait = none

instance (f : Faults) : Decidable f.onlyDeleteMayFail := by
  unfold Faults.onlyDeleteMayFail; infer_instance

/-- STORE and EXPUNGE both fail, everything else succeeds. -/
def deleteFails : Faults :=
  ⟨none, none, true, true, false, false, none, none, none, none, none, none, none, none, none⟩

/-- A mailbox whose only message carries two attachment parts. -/
def twoAttachments : dbImpl :=
  ⟨⟨[⟨1, false, .mail 0 [⟨ascii "Subject", foo⟩] [.inr ⟨.InlineHeader, [], .inr foo⟩,
      .inr ⟨.AttachmentHeader, [], .inr [1]⟩, .inr ⟨.AttachmentHeader, [], .inr [2]⟩]
      sampleWire⟩], 2, []⟩,
    "imapdb"⟩

/-- A mailbox whose only message has an inline part and no attachment. -/
def noAttachment : dbImpl :=
  ⟨⟨[⟨1, false, .mail 0 [⟨ascii "Subject", foo⟩] [.inr ⟨.InlineHeader, [], .inr foo⟩]
      sampleWire⟩], 2, []⟩, "imapdb"⟩

/-- Calls of the three methods, all server commands succeeding. -/
inductive Op where
  | set (now : Nat) (wire : List Byte) (key value : List Byte)
  | delete (key : List Byte)
  | get (key : List Byte)
  deriving DecidableEq, Repr

/-- The session after one call. -/
def step (db : dbImpl) : Op → dbImpl
  | .set now wire key value => (Set noFaults now wire key value db).1
  | .delete key => (Delete noFaults key db).1
  | .get key => (Get noFaults key db).1

/-- The session after a sequence of calls. -/
def run (ops : List Op) (db : dbImpl) : dbImpl := ops.foldl step db

/-- The call is a `Set` that writes a message the search for `K` matches. -/
def Op.writesOver (K : List Byte) : Op → Bool
  | .set now wire key value => (encode now wire key value).textMatch K
  | _ => false

/-! ## Auxiliary functions used to state the effect of the operations -/

/-- UIDs a successful `SEARCH TEXT key` reports on the messages `msgs`. -/
def hits (key : List Byte) (msgs : List Stored) : List Nat :=
  (msgs.filter (fun m => m.literal.textMatch key)).map (fun m => m.uid)

/-- Messages left by the delete step of `Set` and `Delete` when STORE and
EXPUNGE succeed. -/
def survivors (key : List Byte) (msgs : List Stored) : List Stored :=
  if (hits key msgs).length > 0 then
    msgs.filter (fun m => !m.deleted && !decide (m.uid ∈ hits key msgs))
  else msgs

/-- Result of `Get` once the literal is parsed, the parts are `parts`, and
closing the FETCH succeeded. -/
def decodeParts (parts : List (String ⊕ Part)) : Err ⊕ List Byte :=
  match readParts parts none with
  | .inl e => .inl e
  | .inr none => .inl .ErrNotFound
  | .inr (some d) => .inr d

/-- What `io.ReadAll` gives for the attachment-typed parts, in order. -/
def attachments (ps : List Part) : List (String ⊕ List Byte) :=
  (ps.filter (fun p => decide (p.Header = .AttachmentHeader))).map (fun p => p.Body)

/-! ## Lemmas on the server model -/

theorem store_expunge (U : List Nat) (msgs : List Stored) :
    (msgs.map (fun m => if m.uid ∈ U then { m with deleted := true } else m)).filter
        (fun m => !m.deleted)
      = msgs.filter (fun m => !m.deleted && !decide (m.uid ∈ U)) := by
  induction msgs with
  | nil => rfl
  | cons m ms ih =>
    by_cases h : m.uid ∈ U
    · simp [h, List.filter_cons, ih]
    · cases hd : m.deleted <;> simp [h, hd, List.filter_cons, ih]

theorem Set_noFaults_msgs (now : Nat) (wire key value : List Byte) (db : dbImpl) :
    (Set noFaults now wire key value db).1.client.msgs
      = survivors key db.client.msgs ++
        [⟨db.client.uidNext, false, encode now wire key value⟩] := by
  simp only [Set, Client.Select, Client.UIDSearch, Client.Store, Client.Expunge, Client.Append,
    buildMessage, noFaults, survivors, hits]
  split <;> simp [store_expunge]

theorem Set_noFaults_uidNext (now : Nat) (wire key value : List Byte) (db : dbImpl) :
    (Set noFaults now wire key value db).1.client.uidNext = db.client.uidNext + 1 := by
  simp only [Set, Client.Select, Client.UIDSearch, Client.Store, Client.Expunge, Client.Append,
    buildMessage, noFaults]
  split <;> simp

theorem Set_noFaults_err (now : Nat) (wire key value : List Byte) (db : dbImpl) :
    (Set noFaults now wire key value db).2 = none := by
  simp [Set, Client.Select, Client.UIDSearch, Client.Append, buildMessage, noFaults]

theorem Delete_noFaults_msgs (key : List Byte) (db : dbImpl) :
    (Delete noFaults key db).1.client.msgs = survivors key db.client.msgs := by
  simp only [Delete, Client.Select, Client.UIDSearch, Client.Store, Client.Expunge,
    noFaults, survivors, hits]
  split <;> simp [store_expunge]

theorem Delete_noFaults_uidNext (key : List Byte) (db : dbImpl) :
    (Delete noFaults key db).1.client.uidNext = db.client.uidNext := by
  simp only [Delete, Client.Select, Client.UIDSearch, Client.Store, Client.Expunge, noFaults]
  split <;> simp

theorem Delete_noFaults_err (key : List Byte) (db : dbImpl) :
    (Delete noFaults key db).2 = none := by
  simp [Delete, Client.Select, Client.UIDSearch, noFaults]

theorem uid_inj {msgs : List Stored} (h : msgs.Pairwise (fun a b => a.uid < b.uid))
    {a b : Stored} (ha : a ∈ msgs) (hb : b ∈ msgs) (e : a.uid = b.uid) : a = b := by
  induction msgs with
  | nil => cases ha
  | cons x xs ih =>
    rw [List.pairwise_cons] at h
    rcases List.mem_cons.1 ha with rfl | ha1 <;> rcases List.mem_cons.1 hb with rfl | hb1
    · rfl
    · exact absurd e (Nat.ne_of_lt (h.1 _ hb1))
    · exact absurd e.symm (Nat.ne_of_lt (h.1 _ ha1))
    · exact ih h.2 ha1 hb1

theorem mem_hits {key : List Byte} {msgs : List Stored} {u : Nat} :
    u ∈ hits key msgs ↔ ∃ m ∈ msgs, m.literal.textMatch key = true ∧ m.uid = u := by
  simp [hits, and_assoc]

theorem hits_eq_nil {key : List Byte} {msgs : List Stored} :
    hits key msgs = [] ↔ ∀ m ∈ msgs, m.literal.textMatch key = false := by
  simp [hits]

theorem filter_hits (key : List Byte) {msgs : List Stored}
    (h : msgs.Pairwise (fun a b => a.uid < b.uid)) :
    msgs.filter (fun m => decide (m.uid ∈ hits key msgs))
      = msgs.filter (fun m => m.literal.textMatch key) := by
  apply List.filter_congr
  intro x hx
  by_cases hm : x.literal.textMatch key = true
  · have : x.uid ∈ hits key msgs := mem_hits.2 ⟨x, hx, hm, rfl⟩
    simp [hm, this]
  · have : x.uid ∉ hits key msgs := by
      intro hu
      obtain ⟨y, hy, hym, hyu⟩ := mem_hits.1 hu
      have := uid_inj h hy hx hyu
      subst this
      exact hm hym
    simp [hm, this]

theorem head?_filter_find? {α : Type} (p : α → Bool) (l : List α) :
    (l.filter p).head? = l.find? p := by
  induction l with
  | nil => rfl
  | cons x xs ih =>
    cases hx : p x <;> simp [List.filter_cons, List.find?_cons, hx, ih]

theorem survivors_mem {key : List Byte} {msgs : List Stored} {m : Stored}
    (h : m ∈ survivors key msgs) : m ∈ msgs := by
  unfold survivors at h
  split at h
  · exact (List.mem_filter.1 h).1
  · exact h

theorem survivors_nomatch {key : List Byte} {msgs : List Stored} {m : Stored}
    (h : m ∈ survivors key msgs) : m.literal.textMatch key = false := by
  unfold survivors at h
  split at h
  · have h2 := (List.mem_filter.1 h)
    by_contra hc
    have hm : m.literal.textMatch key = true := by simpa using hc
    have : m.uid ∈ hits key msgs := mem_hits.2 ⟨m, h2.1, hm, rfl⟩
    simp [this] at h2
  · rename_i hn
    have h0 : hits key msgs = [] := by
      cases hh : hits key msgs with
      | nil => rfl
      | cons a t => simp [hh] at hn
    exact hits_eq_nil.1 h0 m h

theorem survivors_pairwise {key : List Byte} {msgs : List Stored}
    (h : msgs.Pairwise (fun a b => a.uid < b.uid)) :
    (survivors key msgs).Pairwise (fun a b => a.uid < b.uid) := by
  unfold survivors
  split
  · exact h.filter _
  · exact h

/-! ## Lemmas on `Get` -/

theorem Get_nohit (f : Faults) (key : List Byte) (db : dbImpl)
    (hs : f.Select = none) (hu : f.UIDSearch = none) (h : hits key db.client.msgs = []) :
    (Get f key db).2 = .inl .ErrNotFound := by
  unfold hits at h
  simp [Get, Client.Select, Client.UIDSearch, hs, hu, h]

theorem Get_noFaults_find (key : List Byte) (db : dbImpl) (m : Stored)
    (hp : db.client.msgs.Pairwise (fun a b => a.uid < b.uid))
    (h : db.client.msgs.find? (fun m => m.literal.textMatch key) = some m) :
    (Get noFaults key db).2 =
      match m.literal with
      | .malformed _ e => .inl (.other ("failed to create mail reader: " ++ e))
      | .mail _ _ parts _ => decodeParts parts := by
  have hmem : m ∈ db.client.msgs := List.mem_of_find?_eq_some h
  have hmatch : m.literal.textMatch key = true := by
    simpa using List.find?_some h
  have hne : hits key db.client.msgs ≠ [] := by
    intro h0
    have := hits_eq_nil.1 h0 m hmem
    simp [hmatch] at this
  have hf := filter_hits key hp
  unfold hits at hne hf
  simp only [Get, Client.Select, Client.UIDSearch, Client.Fetch, noFaults]
  simp only [List.length_eq_zero, hne, if_false, hf, List.head?_map, head?_filter_find?, h,
    Bool.false_eq_true, Option.map_some', bodySection]
  cases hl : m.literal with
  | malformed raw e => simp
  | mail d s parts w =>
    simp only [decodeParts]
    cases hr : readParts parts none with
    | inl e => simp
    | inr data => cases data <;> simp

theorem occursIn_sub {K T : List Byte} (h : K <:+: T) : occursIn K T = true := by
  unfold occursIn
  exact decide_eq_true (h.map lower)

/-- The message `Set` writes for `key` matches every `K` that occurs in `key`:
the Subject field carries the key. -/
theorem textMatch_encode_sub (now : Nat) (wire K key value : List Byte)
    (h : K <:+: key) : (encode now wire key value).textMatch K = true := by
  have hs : occursIn K (Field.line ⟨ascii "Subject", key⟩) = true := by
    apply occursIn_sub
    unfold Field.line
    exact h.trans ⟨ascii "Subject" ++ [58, 32], [], by simp⟩
  simp [encode, Literal.textMatch, hs]

theorem textMatch_encode_self (now : Nat) (wire K value : List Byte) :
    (encode now wire K value).textMatch K = true :=
  textMatch_encode_sub now wire K K value List.infix_rfl

theorem decodeParts_encode (now : Nat) (wire key value : List Byte) :
    (match encode now wire key value with
      | .malformed _ e => (.inl (.other ("failed to create mail reader: " ++ e)) : Err ⊕ List Byte)
      | .mail _ _ parts _ => decodeParts parts) = .inr value := by
  simp [encode, encodeParts, decodeParts, readParts]

theorem Set_WF (now : Nat) (wire key value : List Byte) (db : dbImpl) (h : db.client.WF) :
    (Set noFaults now wire key value db).1.client.WF := by
  obtain ⟨hp, hb⟩ := h
  refine ⟨?_, ?_⟩
  · rw [Set_noFaults_msgs, List.pairwise_append]
    refine ⟨survivors_pairwise hp, List.pairwise_singleton _ _, ?_⟩
    intro a ha b hb1
    rw [List.mem_singleton] at hb1
    subst hb1
    exact hb a (survivors_mem ha)
  · rw [Set_noFaults_msgs, Set_noFaults_uidNext]
    intro m hm
    rcases List.mem_append.1 hm with h1 | h1
    · exact Nat.lt_succ_of_lt (hb m (survivors_mem h1))
    · rw [List.mem_singleton] at h1
      subst h1
      exact Nat.lt_succ_self _

theorem Delete_WF (key : List Byte) (db : dbImpl) (h : db.client.WF) :
    (Delete noFaults key db).1.client.WF := by
  obtain ⟨hp, hb⟩ := h
  refine ⟨?_, ?_⟩
  · rw [Delete_noFaults_msgs]
    exact survivors_pairwise hp
  · rw [Delete_noFaults_msgs, Delete_noFaults_uidNext]
    intro m hm
    exact hb m (survivors_mem hm)

theorem find?_survivors_none (key : List Byte) (msgs : List Stored) :
    (survivors key msgs).find? (fun m => m.literal.textMatch key) = none := by
  rw [List.find?_eq_none]
  intro x hx
  simp [survivors_nomatch hx]

theorem survivors_append_keep (key : List Byte) {A : List Stored} {m : Stored}
    (hd : m.deleted = false) (hu : m.uid ∉ hits key (A ++ [m])) :
    ∃ B, survivors key (A ++ [m]) = B ++ [m] ∧ ∀ x ∈ B, x ∈ A := by
  unfold survivors
  split
  · refine ⟨A.filter (fun x => !x.deleted && !decide (x.uid ∈ hits key (A ++ [m]))), ?_, ?_⟩
    · rw [List.filter_append]
      congr 1
      simp [List.filter_cons, hd, hu]
    · intro x hx
      exact (List.mem_filter.1 hx).1
  · exact ⟨A, rfl, fun _ hx => hx⟩

/-- `Get` on a mailbox whose last message is the only one that may match. -/
theorem Get_append_new (K : List Byte) (db : dbImpl) (R : List Stored) (m : Stored)
    (hp : db.client.msgs.Pairwise (fun a b => a.uid < b.uid))
    (hm : db.client.msgs = R ++ [m])
    (hR : ∀ x ∈ R, x.literal.textMatch K = false) :
    (Get noFaults K db).2 =
      if m.literal.textMatch K = true then
        (match m.literal with
          | .malformed _ e => .inl (.other ("failed to create mail reader: " ++ e))
          | .mail _ _ parts _ => decodeParts parts)
      else .inl .ErrNotFound := by
  have hnone : R.find? (fun m => m.literal.textMatch K) = none := by
    rw [List.find?_eq_none]
    intro x hx
    simp [hR x hx]
  cases hk : m.literal.textMatch K with
  | false =>
    simp only [Bool.false_eq_true, if_false]
    apply Get_nohit noFaults K db rfl rfl
    rw [hits_eq_nil, hm]
    intro x hx
    rcases List.mem_append.1 hx with h1 | h1
    · exact hR x h1
    · rw [List.mem_singleton] at h1
      subst h1
      exact hk
  | true =>
    simp only [if_true]
    have hfind : db.client.msgs.find? (fun m => m.literal.textMatch K) = some m := by
      rw [hm, List.find?_append, hnone]
      simp [hk]
    exact Get_noFaults_find K db m hp hfind

/-- Round trip on a mailbox that satisfies the invariant. -/
theorem Get_after_Set (now : Nat) (wire K V : List Byte) (db : dbImpl) (h : db.client.WF) :
    (Get noFaults K (Set noFaults now wire K V db).1).2 = .inr V := by
  have hwf := Set_WF now wire K V db h
  rw [Get_append_new K _ _ _ hwf.1 (Set_noFaults_msgs now wire K V db)
    (fun x hx => survivors_nomatch hx)]
  simp only [textMatch_encode_self, if_true]
  exact decodeParts_encode now wire K V

/-- After `Set`, exactly the new message matches the key. -/
theorem filter_after_Set (now : Nat) (wire K V : List Byte) (db : dbImpl) :
    (Set noFaults now wire K V db).1.client.msgs.filter (fun m => m.literal.textMatch K)
      = [⟨db.client.uidNext, false, encode now wire K V⟩] := by
  rw [Set_noFaults_msgs, List.filter_append]
  have : (survivors K db.client.msgs).filter (fun m => m.literal.textMatch K) = [] := by
    rw [List.filter_eq_nil_iff]
    intro a ha
    simp [survivors_nomatch ha]
  rw [this]
  simp [List.filter_cons, textMatch_encode_self]

theorem Set_dbName (f : Faults) (now : Nat) (wire key value : List Byte) (db : dbImpl) :
    (Set f now wire key value db).1.dbName = db.dbName := by
  unfold Set
  repeat' split
  all_goals rfl

theorem UIDSearch_noFaults (K : List Byte) (c : Client) :
    (c.UIDSearch noFaults K).2 = .inr (hits K c.msgs) := rfl

theorem hits_after_Set (now : Nat) (wire K V : List Byte) (db : dbImpl) :
    hits K (Set noFaults now wire K V db).1.client.msgs = [db.client.uidNext] := by
  unfold hits
  rw [filter_after_Set]
  rfl

theorem Set_then_search (now : Nat) (wire K V : List Byte) (db : dbImpl) :
    ((Set noFaults now wire K V db).1.client.UIDSearch noFaults K).2
      = .inr [db.client.uidNext] := by
  rw [UIDSearch_noFaults, hits_after_Set]

theorem Delete_noFaults_log (key : List Byte) (db : dbImpl) (u : Nat) (us : List Nat)
    (h : hits key db.client.msgs = u :: us) :
    (Delete noFaults key db).1.client.log
      = db.client.log ++ [.SELECT db.dbName, .UIDSEARCH key, .UIDSTORE (u :: us), .EXPUNGE] := by
  unfold hits at h
  simp [Delete, Client.Select, Client.UIDSearch, Client.Store, Client.Expunge, noFaults, h]

theorem readParts_ok (ps : List Part) :
    ∀ (bs : List (List Byte)) (data : Option (List Byte)), attachments ps = bs.map .inr →
      readParts (ps.map .inr) data = .inr (bs.getLast?.or data) := by
  induction ps with
  | nil =>
    intro bs data h
    cases bs with
    | nil => rfl
    | cons b bs => simp [attachments] at h
  | cons p ps ih =>
    intro bs data h
    cases hh : p.Header with
    | InlineHeader =>
      have h1 : attachments ps = bs.map .inr := by
        simpa [attachments, List.filter_cons, hh] using h
      simpa [readParts, hh] using ih bs data h1
    | AttachmentHeader =>
      cases bs with
      | nil => simp [attachments, List.filter_cons, hh] at h
      | cons b bs =>
        have h1 : p.Body = .inr b ∧ attachments ps = bs.map .inr := by
          simpa [attachments, List.filter_cons, hh] using h
        have := ih bs (some b) h1.2
        simp only [List.map_cons, readParts, hh, h1.1, this, List.getLast?_cons]
        cases bs.getLast? <;> rfl

theorem Get_noFaults_mail (key : List Byte) (db : dbImpl) (m : Stored) (d : Nat)
    (fs : List Field) (ps : List Part) (w : List Byte) (bs : List (List Byte))
    (hp : db.client.msgs.Pairwise (fun a b => a.uid < b.uid))
    (hfind : db.client.msgs.find? (fun m => m.literal.textMatch key) = some m)
    (hl : m.literal = .mail d fs (ps.map .inr) w)
    (ha : attachments ps = bs.map .inr) :
    (Get noFaults key db).2 =
      match bs.getLast? with
      | none => .inl .ErrNotFound
      | some b => .inr b := by
  rw [Get_noFaults_find key db m hp hfind, hl]
  simp only [decodeParts, readParts_ok ps bs none ha]
  cases bs.getLast? <;> rfl

theorem Get_msgs (f : Faults) (key : List Byte) (db : dbImpl) :
    (Get f key db).1.client.msgs = db.client.msgs := by
  cases hs : f.Select <;> cases hu : f.UIDSearch <;>
    simp only [Get, Client.Select, Client.UIDSearch, Client.Fetch, hs, hu]
  all_goals (repeat' split)
  all_goals rfl

theorem step_nomatch (K : List Byte) (op : Op) (db : dbImpl)
    (h0 : ∀ m ∈ db.client.msgs, m.literal.textMatch K = false)
    (hop : op.writesOver K = false) :
    ∀ m ∈ (step db op).client.msgs, m.literal.textMatch K = false := by
  intro m hm
  cases op with
  | set now wire key value =>
    simp only [step, Set_noFaults_msgs] at hm
    rcases List.mem_append.1 hm with h1 | h1
    · exact h0 m (survivors_mem h1)
    · rw [List.mem_singleton] at h1
      subst h1
      exact hop
  | delete key =>
    simp only [step, Delete_noFaults_msgs] at hm
    exact h0 m (survivors_mem hm)
  | get key =>
    simp only [step, Get_msgs] at hm
    exact h0 m hm

theorem run_nomatch (K : List Byte) (ops : List Op) :
    ∀ db : dbImpl, (∀ m ∈ db.client.msgs, m.literal.textMatch K = false) →
      (∀ op ∈ ops, op.writesOver K = false) →
      ∀ m ∈ (run ops db).client.msgs, m.literal.textMatch K = false := by
  induction ops with
  | nil => intro db h0 _; exact h0
  | cons op ops ih =>
    intro db h0 hops
    exact ih (step db op) (step_nomatch K op db h0 (hops op (List.mem_cons_self _ _)))
      (fun o ho => hops o (List.mem_cons_of_mem _ ho))

/-- `Set(K1)`, `Set(K2)`, `Get(K1)` for `K1` occurring in `K2`: the older entry
answers unless the search for `K2` matched it, in which case the second `Set`
expunged it and the newer entry answers. -/
theorem Get_Set_Set (now1 now2 : Nat) (w1 w2 K1 K2 V1 V2 : List Byte) (db : dbImpl)
    (h : db.client.WF) (hsub : K1 <:+: K2) :
    (Get noFaults K1 (Set noFaults now2 w2 K2 V2 (Set noFaults now1 w1 K1 V1 db).1).1).2
      = .inr (if (encode now1 w1 K1 V1).textMatch K2 = true then V2 else V1) := by
  have hwf2 := Set_WF now2 w2 K2 V2 _ (Set_WF now1 w1 K1 V1 db h)
  cases hb : (encode now1 w1 K1 V1).textMatch K2 with
  | false =>
    simp only [Bool.false_eq_true, if_false]
    have hu : (⟨db.client.uidNext, false, encode now1 w1 K1 V1⟩ : Stored).uid ∉
        hits K2 (survivors K1 db.client.msgs ++
          [⟨db.client.uidNext, false, encode now1 w1 K1 V1⟩]) := by
      intro hin
      obtain ⟨y, hy, hym, hyu⟩ := mem_hits.1 hin
      rcases List.mem_append.1 hy with h1 | h1
      · have := h.2 y (survivors_mem h1)
        simp only at hyu
        omega
      · rw [List.mem_singleton] at h1
        subst h1
        simp [hb] at hym
    obtain ⟨B, hB, hBsub⟩ := survivors_append_keep K2 rfl hu
    have hfind : (Set noFaults now2 w2 K2 V2 (Set noFaults now1 w1 K1 V1 db).1).1.client.msgs.find?
        (fun m => m.literal.textMatch K1)
          = some ⟨db.client.uidNext, false, encode now1 w1 K1 V1⟩ := by
      rw [Set_noFaults_msgs, Set_noFaults_msgs, hB]
      have hnone : B.find? (fun m => m.literal.textMatch K1) = none := by
        rw [List.find?_eq_none]
        intro x hx
        simp [survivors_nomatch (hBsub x hx)]
      simp [List.find?_append, hnone, textMatch_encode_self]
    rw [Get_noFaults_find K1 _ _ hwf2.1 hfind]
    exact decodeParts_encode now1 w1 K1 V1
  | true =>
    simp only [if_true]
    rw [Get_append_new K1 _ _ _ hwf2.1 (Set_noFaults_msgs now2 w2 K2 V2 _)]
    · simp only [textMatch_encode_sub now2 w2 K1 K2 V2 hsub, if_true]
      exact decodeParts_encode now2 w2 K2 V2
    · intro x hx
      have hx1 := survivors_mem hx
      rw [Set_noFaults_msgs] at hx1
      rcases List.mem_append.1 hx1 with h1 | h1
      · exact survivors_nomatch h1
      · rw [List.mem_singleton] at h1
        subst h1
        have := survivors_nomatch hx
        simp [hb] at this

/-- `Set(K2)`, `Set(K1)`, `Get(K2)` for `K1` occurring in `K2`: the entry of
`K2` is expunged, so `Get(K2)` finds nothing unless the search for `K2` matches
the message written for `K1`, whose value it then returns. -/
theorem Get_superstring_after (now1 now2 : Nat) (w1 w2 K1 K2 V1 V2 : List Byte)
    (db : dbImpl) (h : db.client.WF) (hsub : K1 <:+: K2) :
    (Get noFaults K2 (Set noFaults now1 w1 K1 V1 (Set noFaults now2 w2 K2 V2 db).1).1).2
      = if (encode now1 w1 K1 V1).textMatch K2 = true then .inr V1
        else .inl .ErrNotFound := by
  have hwf2 := Set_WF now1 w1 K1 V1 _ (Set_WF now2 w2 K2 V2 db h)
  rw [Get_append_new K2 _ _ _ hwf2.1 (Set_noFaults_msgs now1 w1 K1 V1 _)]
  · simp only [decodeParts_encode]
  · intro x hx
    have hx1 := survivors_mem hx
    rw [Set_noFaults_msgs] at hx1
    rcases List.mem_append.1 hx1 with h1 | h1
    · exact survivors_nomatch h1
    · rw [List.mem_singleton] at h1
      subst h1
      have := survivors_nomatch hx
      simp [textMatch_encode_sub now2 w2 K1 K2 V2 hsub] at this

/-! ## The claims -/

/-- C1: when every server command succeeds and the TEXT search finds a key in
the subject of a message, `Set(K, V)` returns no error and the `Get(K)` that
follows returns exactly `V`, for every key, value and mailbox, whatever octets
the mail writer adds to the message. -/
theorem Set_then_Get_roundtrip (now : Nat) (wire K V : List Byte) (db : dbImpl)
    (h : db.client.WF) :
    (Set noFaults now wire K V db).2 = none ∧
      (Get noFaults K (Set noFaults now wire K V db).1).2 = .inr V :=
  ⟨Set_noFaults_err now wire K V db, Get_after_Set now wire K V db h⟩

theorem Set_then_Get_roundtrip_witness :
    sampleDB.client.WF ∧ (Set noFaults 12 sampleWire foo [1, 2, 3] sampleDB).2 = none ∧
      (Get noFaults foo (Set noFaults 12 sampleWire foo [1, 2, 3] sampleDB).1).2
        = .inr [1, 2, 3] :=
  ⟨by decide, Set_then_Get_roundtrip 12 sampleWire foo [1, 2, 3] sampleDB (by decide)⟩

/-- C2: `Set(K, V1)`, `Set(K, V2)`, `Get(K)` with every command succeeding
returns `V2`, and afterwards the search for `K` reports at most one message. -/
theorem Set_Set_Get_overwrite (now1 now2 : Nat) (w1 w2 K V1 V2 : List Byte) (db : dbImpl)
    (h : db.client.WF) :
    (Set noFaults now1 w1 K V1 db).2 = none ∧
      (Set noFaults now2 w2 K V2 (Set noFaults now1 w1 K V1 db).1).2 = none ∧
      (Get noFaults K (Set noFaults now2 w2 K V2 (Set noFaults now1 w1 K V1 db).1).1).2
        = .inr V2 ∧
      ∃ uids, ((Set noFaults now2 w2 K V2 (Set noFaults now1 w1 K V1 db).1).1.client.UIDSearch
          noFaults K).2 = .inr uids ∧ uids.length ≤ 1 :=
  ⟨Set_noFaults_err _ _ _ _ _, Set_noFaults_err _ _ _ _ _,
    Get_after_Set _ _ _ _ _ (Set_WF _ _ _ _ _ h),
    ⟨_, Set_then_search _ _ _ _ _, Nat.le_refl 1⟩⟩

theorem Set_Set_Get_overwrite_witness :
    sampleDB.client.WF ∧
      (Get noFaults foo
        (Set noFaults 13 sampleWire foo [2] (Set noFaults 12 sampleWire foo [1] sampleDB).1).1).2
        = .inr [2] :=
  ⟨by decide,
    (Set_Set_Get_overwrite 12 13 sampleWire sampleWire foo [1] [2] sampleDB (by decide)).2.2.1⟩

/-- C4: with every command succeeding, `Set(K, V)`, `Delete(K)`, `Get(K)` ends
in `ErrNotFound`: `Delete` issues STORE for the UID the search reports and then
EXPUNGE, after which no message of the mailbox matches `K`. -/
theorem Set_Delete_Get_notFound (now : Nat) (wire K V : List Byte) (db : dbImpl) :
    (Delete noFaults K (Set noFaults now wire K V db).1).2 = none ∧
      (Delete noFaults K (Set noFaults now wire K V db).1).1.client.log
        = (Set noFaults now wire K V db).1.client.log ++
          [.SELECT db.dbName, .UIDSEARCH K, .UIDSTORE [db.client.uidNext], .EXPUNGE] ∧
      (∀ m ∈ (Delete noFaults K (Set noFaults now wire K V db).1).1.client.msgs,
        m.literal.textMatch K = false) ∧
      (Get noFaults K (Delete noFaults K (Set noFaults now wire K V db).1).1).2
        = .inl .ErrNotFound := by
  have hno : ∀ m ∈ (Delete noFaults K (Set noFaults now wire K V db).1).1.client.msgs,
      m.literal.textMatch K = false := by
    intro m hm
    rw [Delete_noFaults_msgs] at hm
    exact survivors_nomatch hm
  refine ⟨Delete_noFaults_err _ _, ?_, hno, ?_⟩
  · rw [Delete_noFaults_log K _ _ _ (hits_after_Set now wire K V db), Set_dbName]
  · exact Get_nohit noFaults K _ rfl rfl (hits_eq_nil.2 hno)

/-- C5: when select and search succeed and the search for `K` reports no UID,
`Delete(K)` returns no error, sends nothing after SELECT and SEARCH (no STORE,
no EXPUNGE) and leaves the mailbox as it was. -/
theorem Delete_absent_noop (f : Faults) (K : List Byte) (db : dbImpl)
    (hs : f.Select = none) (hq : (db.client.UIDSearch f K).2 = .inr []) :
    (Delete f K db).2 = none ∧
      (Delete f K db).1.client.msgs = db.client.msgs ∧
      (Delete f K db).1.client.uidNext = db.client.uidNext ∧
      (Delete f K db).1.client.log = db.client.log ++ [.SELECT db.dbName, .UIDSEARCH K] := by
  simp only [Client.UIDSearch] at hq
  cases hu : f.UIDSearch with
  | some e => simp [hu] at hq
  | none =>
    simp only [hu, Sum.inr.injEq] at hq
    simp [Delete, Client.Select, Client.UIDSearch, hs, hu, hq]

theorem Delete_absent_noop_witness :
    (Delete deleteFails keyZZ sampleDB).2 = none ∧
      (Delete deleteFails keyZZ sampleDB).1.client.msgs = sampleDB.client.msgs ∧
      (Delete deleteFails keyZZ sampleDB).1.client.uidNext = sampleDB.client.uidNext ∧
      (Delete deleteFails keyZZ sampleDB).1.client.log
        = sampleDB.client.log ++ [.SELECT sampleDB.dbName, .UIDSEARCH keyZZ] :=
  Delete_absent_noop deleteFails keyZZ sampleDB (by decide) (by decide)

/-- C8: when select, search, the construction of the message and the append
succeed, `Set` returns no error and the new message is the last of the
mailbox, whether STORE and EXPUNGE failed or not. -/
theorem Set_ignores_delete_result (f : Faults) (now : Nat) (wire K V : List Byte)
    (db : dbImpl) (h : f.onlyDeleteMayFail) :
    (Set f now wire K V db).2 = none ∧
      ∃ rest, (Set f now wire K V db).1.client.msgs
        = rest ++ [⟨db.client.uidNext, false, encode now wire K V⟩] := by
  obtain ⟨h1, h2, h3, h4, h5, h6, h7, h8, h9, h10⟩ := h
  simp only [Set, Client.Select, Client.UIDSearch, Client.Store, Client.Expunge, Client.Append,
    buildMessage, h1, h2, h3, h4, h5, h6, h7, h8, h9, h10]
  refine ⟨trivial, ?_⟩
  split
  · exact ⟨_, rfl⟩
  · exact ⟨_, rfl⟩

theorem Set_ignores_delete_result_witness :
    deleteFails.onlyDeleteMayFail ∧ (Set deleteFails 12 sampleWire foo [1] sampleDB).2 = none ∧
      ∃ rest, (Set deleteFails 12 sampleWire foo [1] sampleDB).1.client.msgs
        = rest ++ [⟨sampleDB.client.uidNext, false, encode 12 sampleWire foo [1]⟩] :=
  ⟨by decide,
    Set_ignores_delete_result deleteFails 12 sampleWire foo [1] sampleDB (by decide)⟩

/-- C9, as stated, fails: `a` is a proper substring of `ta`, yet on the empty
mailbox `Set(a, [1])`, `Set(ta, [2])`, `Get(a)` returns `[2]`: the search for
`ta` matches the message written for `a` (in `attachment` and `data.bin` of
its attachment header), so the second `Set` expunges it. -/
theorem substring_collision_counterexample :
    emptyDB.client.WF ∧ keyA <:+: keyTA ∧ keyA ≠ keyTA ∧
      (encode 0 [] keyA [1]).textMatch keyTA = true ∧
      (Get noFaults keyA
        (Set noFaults 1 [] keyTA [2] (Set noFaults 0 [] keyA [1] emptyDB).1).1).2 = .inr [2] ∧
      (Get noFaults keyA
        (Set noFaults 1 [] keyTA [2] (Set noFaults 0 [] keyA [1] emptyDB).1).1).2 ≠ .inr [1] := by
  decide

/-- C9, amended: with every command succeeding and FETCH answering in
ascending UID order, if `K1` occurs in `K2` then `Set(K1, V1)`, `Set(K2, V2)`,
`Get(K1)` returns `V1` when the search for `K2` does not match the message
written for `K1`, and `V2` when it does, from every mailbox; the witness is
`foo`, `foobar` on the empty mailbox, which returns `V1`. -/
theorem substring_collision_Get (now1 now2 : Nat) (w1 w2 K1 K2 V1 V2 : List Byte)
    (db : dbImpl) (h : db.client.WF) (hsub : K1 <:+: K2) :
    ((encode now1 w1 K1 V1).textMatch K2 = false →
        (Get noFaults K1
          (Set noFaults now2 w2 K2 V2 (Set noFaults now1 w1 K1 V1 db).1).1).2 = .inr V1) ∧
      ((encode now1 w1 K1 V1).textMatch K2 = true →
        (Get noFaults K1
          (Set noFaults now2 w2 K2 V2 (Set noFaults now1 w1 K1 V1 db).1).1).2 = .inr V2) := by
  have hg := Get_Set_Set now1 now2 w1 w2 K1 K2 V1 V2 db h hsub
  constructor
  · intro hb
    rw [hg, hb]
    rfl
  · intro hb
    rw [hg, hb]
    rfl

theorem substring_collision_Get_witness :
    emptyDB.client.WF ∧ foo <:+: foobar ∧
      (encode 0 sampleWire foo [1]).textMatch foobar = false ∧
      (Get noFaults foo
        (Set noFaults 1 sampleWire foobar [2] (Set noFaults 0 sampleWire foo [1] emptyDB).1).1).2
        = .inr [1] :=
  ⟨by decide, by decide, by decide,
    (substring_collision_Get 0 1 sampleWire sampleWire foo foobar [1] [2] emptyDB (by decide)
      (by decide)).1 (by decide)⟩

/-- C10, as stated, fails: `a` is a proper substring of `ta`, yet on the empty
mailbox after `Set(ta, [2])` and `Set(a, [1])` the call `Get(ta)` does not fail
with `ErrNotFound`: the search for `ta` matches the message written for `a`
and `Get` returns `[1]`. -/
theorem superstring_Get_counterexample :
    keyA <:+: keyTA ∧ keyA ≠ keyTA ∧
      (Get noFaults keyTA
        (Set noFaults 1 [] keyA [1] (Set noFaults 0 [] keyTA [2] emptyDB).1).1).2 = .inr [1] ∧
      (Get noFaults keyTA
        (Set noFaults 1 [] keyA [1] (Set noFaults 0 [] keyTA [2] emptyDB).1).1).2
        ≠ .inl .ErrNotFound := by
  decide

/-- C10, amended: with every command succeeding, if `K1` occurs in `K2` then
after `Set(K2, V2)` the entry of `K2` is there (`Get(K2)` returns `V2`), and
after the `Set(K1, V1)` that follows the only message matching `K1` is the one
just appended, the message written for `K2` is no longer in the mailbox, and
`Get(K2)` fails with `ErrNotFound` when the search for `K2` does not match the
message written for `K1` (as for `foo`, `foobar`) and returns `V1` when it
does. -/
theorem Set_substring_destroys_superstring (now1 now2 : Nat) (w1 w2 K1 K2 V1 V2 : List Byte)
    (db : dbImpl) (h : db.client.WF) (hsub : K1 <:+: K2) :
    (Get noFaults K2 (Set noFaults now2 w2 K2 V2 db).1).2 = .inr V2 ∧
      (∀ m ∈ (Set noFaults now1 w1 K1 V1 (Set noFaults now2 w2 K2 V2 db).1).1.client.msgs,
        m.literal.textMatch K1 = true →
          m = ⟨db.client.uidNext + 1, false, encode now1 w1 K1 V1⟩) ∧
      (⟨db.client.uidNext, false, encode now2 w2 K2 V2⟩ : Stored) ∉
        (Set noFaults now1 w1 K1 V1 (Set noFaults now2 w2 K2 V2 db).1).1.client.msgs ∧
      ((encode now1 w1 K1 V1).textMatch K2 = false →
        (Get noFaults K2
          (Set noFaults now1 w1 K1 V1 (Set noFaults now2 w2 K2 V2 db).1).1).2
          = .inl .ErrNotFound) ∧
      ((encode now1 w1 K1 V1).textMatch K2 = true →
        (Get noFaults K2
          (Set noFaults now1 w1 K1 V1 (Set noFaults now2 w2 K2 V2 db).1).1).2
          = .inr V1) := by
  have honly : ∀ m ∈ (Set noFaults now1 w1 K1 V1
      (Set noFaults now2 w2 K2 V2 db).1).1.client.msgs,
      m.literal.textMatch K1 = true →
        m = ⟨db.client.uidNext + 1, false, encode now1 w1 K1 V1⟩ := by
    intro m hm hk
    have hin : m ∈ (Set noFaults now1 w1 K1 V1
        (Set noFaults now2 w2 K2 V2 db).1).1.client.msgs.filter
        (fun m => m.literal.textMatch K1) := List.mem_filter.2 ⟨hm, hk⟩
    rw [filter_after_Set, Set_noFaults_uidNext] at hin
    exact List.mem_singleton.1 hin
  have hg := Get_superstring_after now1 now2 w1 w2 K1 K2 V1 V2 db h hsub
  refine ⟨Get_after_Set now2 w2 K2 V2 db h, honly, ?_, ?_, ?_⟩
  · intro hmem
    have := honly _ hmem (textMatch_encode_sub now2 w2 K1 K2 V2 hsub)
    have hu := congrArg Stored.uid this
    simp at hu
  · intro hb
    rw [hg, hb]
    rfl
  · intro hb
    rw [hg, hb]
    rfl

theorem Set_substring_destroys_superstring_witness :
    sampleDB.client.WF ∧ foo <:+: foobar ∧
      (encode 1 sampleWire foo [1]).textMatch foobar = false ∧
      (Get noFaults foobar
        (Set noFaults 1 sampleWire foo [1] (Set noFaults 0 sampleWire foobar [2] sampleDB).1).1).2
        = .inl .ErrNotFound :=
  ⟨by decide, by decide, by decide,
    (Set_substring_destroys_superstring 1 0 sampleWire sampleWire foo foobar [1] [2] sampleDB
      (by decide) (by decide)).2.2.2.1 (by decide)⟩

/-- C3, as stated, fails: on the empty mailbox, after `Set(foobar, [7])` the
key `foo` was never written, yet `Get(foo)` returns `[7]` and not
`ErrNotFound`. -/
theorem Get_unwritten_key_counterexample :
    (Get noFaults foo (run [.set 0 [] foobar [7]] emptyDB)).2 = .inr [7] ∧
      (Get noFaults foo (run [.set 0 [] foobar [7]] emptyDB)).2 ≠ .inl .ErrNotFound := by
  decide

/-- C3, amended: `Get` returns `ErrNotFound` (1) whenever select and search
succeed and the search reports no UID, whatever else fails; (2) with every
command succeeding, whenever the message FETCH delivers first (the first match
in mailbox order) is parsed by the mail reader, every `NextPart` call on it
succeeds, and none of its parts is attachment-typed; (3) in particular, with
every command succeeding, on a mailbox built from the empty one by calls of
`Set`, `Delete` and `Get` in which no `Set` wrote a message that the search
for `K` matches. -/
theorem Get_notFound_cases :
    (∀ (f : Faults) (K : List Byte) (db : dbImpl), f.Select = none →
        (db.client.UIDSearch f K).2 = .inr [] → (Get f K db).2 = .inl .ErrNotFound) ∧
    (∀ (K : List Byte) (db : dbImpl) (m : Stored) (d : Nat) (fs : List Field)
        (ps : List Part) (w : List Byte),
        db.client.WF →
        db.client.msgs.find? (fun m => m.literal.textMatch K) = some m →
        m.literal = .mail d fs (ps.map .inr) w →
        (∀ p ∈ ps, p.Header ≠ .AttachmentHeader) →
        (Get noFaults K db).2 = .inl .ErrNotFound) ∧
    (∀ (K : List Byte) (ops : List Op), (∀ op ∈ ops, op.writesOver K = false) →
        (Get noFaults K (run ops emptyDB)).2 = .inl .ErrNotFound) := by
  refine ⟨?_, ?_, ?_⟩
  · intro f K db hs hq
    simp only [Client.UIDSearch] at hq
    cases hu : f.UIDSearch with
    | some e => simp [hu] at hq
    | none =>
      simp only [hu, Sum.inr.injEq] at hq
      exact Get_nohit f K db hs hu hq
  · intro K db m d fs ps w hwf hfind hl hps
    have ha : attachments ps = ([] : List (List Byte)).map .inr := by
      simp only [attachments, List.map_nil, List.map_eq_nil_iff, List.filter_eq_nil_iff]
      intro p hp
      simpa using hps p hp
    exact Get_noFaults_mail K db m d fs ps w [] hwf.1 hfind hl ha
  · intro K ops hops
    have hno := run_nomatch K ops emptyDB (by intro m hm; cases hm) hops
    exact Get_nohit noFaults K _ rfl rfl (hits_eq_nil.2 hno)

theorem Get_notFound_cases_witness :
    (Get deleteFails keyZZ sampleDB).2 = .inl .ErrNotFound ∧
      (Get noFaults foo noAttachment).2 = .inl .ErrNotFound ∧
      (Get noFaults foo
        (run [.set 1 sampleWire keyTA [5], .delete keyZZ, .get foo] emptyDB)).2
        = .inl .ErrNotFound :=
  ⟨Get_notFound_cases.1 deleteFails keyZZ sampleDB (by decide) (by decide),
    Get_notFound_cases.2.1 foo noAttachment
      ⟨1, false, .mail 0 [⟨ascii "Subject", foo⟩] [.inr ⟨.InlineHeader, [], .inr foo⟩]
        sampleWire⟩
      0 [⟨ascii "Subject", foo⟩] [⟨.InlineHeader, [], .inr foo⟩] sampleWire
      (by decide) (by decide) rfl (by decide),
    Get_notFound_cases.2.2 foo [.set 1 sampleWire keyTA [5], .delete keyZZ, .get foo]
      (by decide)⟩

/-- C6, as stated, fails: `Set(foo, empty)` then `Get(foo)` on the empty
mailbox returns the empty value with no error, not `ErrNotFound`. -/
theorem Set_empty_Get_counterexample :
    (Get noFaults foo (Set noFaults 0 [] foo [] emptyDB).1).2 = .inr [] ∧
      (Get noFaults foo (Set noFaults 0 [] foo [] emptyDB).1).2 ≠ .inl .ErrNotFound := by
  decide

/-- C6, amended: an empty value is present.  With every command succeeding,
`Set(K, empty)` then `Get(K)` returns the empty byte sequence and no error; and
for a fetched message whose parts are readable `Get` returns `ErrNotFound`
exactly when there is no attachment part, and otherwise the decoded body of an
attachment, also when that body has zero bytes. -/
theorem Get_empty_value_present :
    (∀ (now : Nat) (wire K : List Byte) (db : dbImpl), db.client.WF →
        (Set noFaults now wire K [] db).2 = none ∧
          (Get noFaults K (Set noFaults now wire K [] db).1).2 = .inr []) ∧
    (∀ (K : List Byte) (db : dbImpl) (m : Stored) (d : Nat) (fs : List Field)
        (ps : List Part) (w : List Byte) (bs : List (List Byte)),
        db.client.WF →
        db.client.msgs.find? (fun m => m.literal.textMatch K) = some m →
        m.literal = .mail d fs (ps.map .inr) w →
        attachments ps = bs.map .inr →
        ((Get noFaults K db).2 = .inl .ErrNotFound ↔ bs = []) ∧
          (bs.getLast? = some [] → (Get noFaults K db).2 = .inr [])) := by
  refine ⟨?_, ?_⟩
  · intro now wire K db hwf
    exact ⟨Set_noFaults_err now wire K [] db, Get_after_Set now wire K [] db hwf⟩
  · intro K db m d fs ps w bs hwf hfind hl ha
    have hg := Get_noFaults_mail K db m d fs ps w bs hwf.1 hfind hl ha
    refine ⟨?_, ?_⟩
    · cases hb : bs.getLast? with
      | none =>
        rw [hb] at hg
        simp only [hg, true_iff]
        exact List.getLast?_eq_none_iff.1 hb
      | some b =>
        rw [hb] at hg
        constructor
        · intro h1
          rw [hg] at h1
          cases h1
        · intro h0
          simp [h0] at hb
    · intro hb
      rw [hb] at hg
      exact hg

theorem Get_empty_value_present_witness :
    ((Set noFaults 12 sampleWire foo [] sampleDB).2 = none ∧
        (Get noFaults foo (Set noFaults 12 sampleWire foo [] sampleDB).1).2 = .inr []) ∧
      (((Get noFaults foo (Set noFaults 0 sampleWire foo [] emptyDB).1).2 = .inl .ErrNotFound ↔
          [([] : List Byte)] = []) ∧
        (([([] : List Byte)]).getLast? = some [] →
          (Get noFaults foo (Set noFaults 0 sampleWire foo [] emptyDB).1).2 = .inr [])) :=
  ⟨Get_empty_value_present.1 12 sampleWire foo sampleDB (by decide),
    Get_empty_value_present.2 foo (Set noFaults 0 sampleWire foo [] emptyDB).1
      ⟨1, false, encode 0 sampleWire foo []⟩
      0 [⟨ascii "Subject", foo⟩] (encodeParts foo []) sampleWire [[]]
      (by decide) (by decide) rfl (by decide)⟩

/-- C7, as stated, fails: for a message with the attachment parts `[1]` and
`[2]`, in this order, `Get` returns `[2]`, not the body `[1]` of the first. -/
theorem Get_two_attachments_counterexample :
    twoAttachments.client.msgs.map (fun m => m.literal)
        = [.mail 0 [⟨ascii "Subject", foo⟩] [.inr ⟨.InlineHeader, [], .inr foo⟩,
            .inr ⟨.AttachmentHeader, [], .inr [1]⟩, .inr ⟨.AttachmentHeader, [], .inr [2]⟩]
            sampleWire] ∧
      (Get noFaults foo twoAttachments).2 = .inr [2] ∧
      (Get noFaults foo twoAttachments).2 ≠ .inr [1] := by
  decide

/-- C7, amended: decode takes the last attachment.  With every command
succeeding, for a fetched message whose parts are readable and include at
least one attachment-typed part, `Get` returns the body of the last
attachment-typed part in part order (a later attachment replaces an earlier
one). -/
theorem Get_returns_last_attachment (K : List Byte) (db : dbImpl) (m : Stored) (d : Nat)
    (fs : List Field) (ps : List Part) (w : List Byte) (bs : List (List Byte))
    (hwf : db.client.WF)
    (hfind : db.client.msgs.find? (fun m => m.literal.textMatch K) = some m)
    (hl : m.literal = .mail d fs (ps.map .inr) w)
    (ha : attachments ps = bs.map .inr) (hne : bs ≠ []) :
    (Get noFaults K db).2 = .inr (bs.getLast hne) := by
  rw [Get_noFaults_mail K db m d fs ps w bs hwf.1 hfind hl ha, List.getLast?_eq_getLast _ hne]

theorem Get_returns_last_attachment_witness :
    (Get noFaults foo twoAttachments).2 = .inr [2] :=
  Get_returns_last_attachment foo twoAttachments
    ⟨1, false, .mail 0 [⟨ascii "Subject", foo⟩] [.inr ⟨.InlineHeader, [], .inr foo⟩,
      .inr ⟨.AttachmentHeader, [], .inr [1]⟩, .inr ⟨.AttachmentHeader, [], .inr [2]⟩]
      sampleWire⟩
    0 [⟨ascii "Subject", foo⟩]
    [⟨.InlineHeader, [], .inr foo⟩, ⟨.AttachmentHeader, [], .inr [1]⟩,
      ⟨.AttachmentHeader, [], .inr [2]⟩]
    sampleWire [[1], [2]] (by decide) (by decide) rfl (by decide) (by decide)

end imapdb
